import Mathlib

/-!
# Verification of the environmental-claim ledger (`blockchain.rs`)

A shallow embedding of the ledger state machine from `src/blockchain.rs`
(the variant with the smart security check, the two task pools and the
peer-sync entry points), together with `transaction.rs` and `wallet.rs`.

Modelling conventions:
* `u64` fields become `Nat`; the only subtraction performed by the code is
  guarded by a balance check, so it cannot wrap.  The mining credit
  `balance_yuki += amount + stake` is u64 addition, which wraps in release
  builds (and panics in debug builds) at the `2 ^ 64` boundary: it is
  modelled as addition modulo `2 ^ 64`.
* `f64` values (AI confidence scores, `weight_kg`) become `ℚ`; the decimal
  literals of the source are exact in `ℚ`, and every comparison made by the
  code is far from the rounding error of `f64`.
* `serde_json::Value` metadata is observed by the code only through the
  accessors `["type"]/["count"]/["weight_kg"]/["device_id"]/["evidence"]`
  (each returning an optional value); the metadata is embedded as a record
  of exactly those projections, `Option Metadata` standing for a possibly
  unparseable JSON string.  The record also carries `tons_captured`, a field
  some claims mention: the code never reads it, and the embedding shows so.
* `Utc::now().timestamp()` and the SHA-256 digest `hash_data` of `utils.rs`
  are effect/foreign inputs: they are passed explicitly (`now : Int`,
  `hasher : BlockHasher`).
* The `WalletManager` `HashMap` becomes an association list keyed by the
  wallet address (HashMap keys are unique; lookup and in-place mutation act
  on the first matching entry).
* Console input in `validate_pending_tasks` (one line read per examined
  task) becomes a list of `Action`s consumed in iteration order; any input
  other than approve/reject falls into the catch-all Skip branch, which is
  also the default when the list runs out.
* The `marketplace` field and the wallet/marketplace menu helpers are
  omitted: no operation modelled here reads or writes them.
-/

namespace EnvChain

/-- `TaskStatus` from `transaction.rs`. -/
inductive TaskStatus where
  | PendingValidation
  | Validated
  | Rejected
deriving DecidableEq, Repr

/-- The projections of the `serde_json::Value` proof metadata that the code
reads: `v["type"].as_str()`, `v["count"].as_u64()`, `v["weight_kg"].as_f64()`,
`v["device_id"].as_str()`, `v["evidence"].as_str()`.  `tons_captured` is
carried to show it is never consulted. -/
structure Metadata where
  type : Option String
  count : Option Nat
  weight_kg : Option ℚ
  device_id : Option String
  evidence : Option String
  tons_captured : Option Nat
deriving DecidableEq

/-- `Transaction` from `transaction.rs`.  `proof_metadata` is the JSON string;
`none` models a string that does not parse as JSON. -/
structure Transaction where
  sender : String
  receiver : String
  amount : Nat
  task : String
  proof_metadata : Option Metadata
  status : TaskStatus
deriving DecidableEq

/-- `Transaction::new`: defaults the status to `PendingValidation`. -/
def Transaction.new (sender receiver : String) (amount : Nat) (task : String)
    (proof_metadata : Option Metadata) : Transaction :=
  { sender, receiver, amount, task, proof_metadata,
    status := TaskStatus.PendingValidation }

/-- `Wallet` from `wallet.rs` (balances only; the mnemonic never reaches the
ledger logic). -/
structure Wallet where
  address : String
  balance_yuki : Nat
  balance_yg : Nat
  balance_yt : Nat
deriving DecidableEq

/-- `Block` from `blockchain.rs`. -/
structure Block where
  index : Nat
  timestamp : Int
  transactions : List Transaction
  previous_hash : String
  hash : String
deriving DecidableEq

/-- The digest of `Block::new`, `hash_data(&format!("{}{}{:?}{}", index,
timestamp, transactions, previous_hash))`, abstracted as a function of the
four fields. -/
def BlockHasher : Type :=
  Nat → Int → List Transaction → String → String

/-- `Block::new`; the wall-clock timestamp and the digest function are
explicit parameters. -/
def Block.new (hasher : BlockHasher) (now : Int) (index : Nat)
    (transactions : List Transaction) (previous_hash : String) : Block :=
  { index, timestamp := now, transactions, previous_hash,
    hash := hasher index now transactions previous_hash }

/-- The `Blockchain` struct (chain, wallets, stake parameter, the two task
pools and the device registry; the marketplace is omitted as unused here). -/
structure Blockchain where
  chain : List Block
  wallets : List Wallet
  stake_amount : Nat
  tasks_for_validation : List Transaction
  tasks_for_mining : List Transaction
  authorized_devices : List String
deriving DecidableEq

/-- `WalletManager::get_mut_wallet` — lookup by address (HashMap keys are
unique, so first-match lookup is the map lookup). -/
def getWallet : List Wallet → String → Option Wallet
  | [], _ => none
  | w :: ws, addr => if w.address = addr then some w else getWallet ws addr

/-- `get_mut_wallet` followed by an in-place `balance_yuki` mutation: rewrites
the first wallet bearing the address (HashMap keys are unique). -/
def adjustBalance : List Wallet → String → (Nat → Nat) → List Wallet
  | [], _, _ => []
  | w :: ws, addr, f =>
    if w.address = addr then
      { w with balance_yuki := f w.balance_yuki } :: ws
    else
      w :: adjustBalance ws addr f

/-- `Blockchain::new`.  The wallets loaded from disk by `WalletManager::new`
are a parameter, as is the genesis timestamp. -/
def Blockchain.new (hasher : BlockHasher) (now : Int) (wallets0 : List Wallet) :
    Blockchain :=
  { chain := [Block.new hasher now 0 [] "0"]
    wallets := wallets0
    stake_amount := 5
    tasks_for_validation := []
    tasks_for_mining := []
    authorized_devices := ["yuki-iot-alpha-001", "yuki-iot-beta-999"] }

/-- Rust `u64` saturating cast from `f64` (`as u64`): truncation toward zero,
clamped to the `u64` range. -/
def ratToU64 (q : ℚ) : Nat :=
  if q ≤ 0 then 0 else min q.floor.toNat (2 ^ 64 - 1)

/-- `Blockchain::calculate_reward`: parse failure yields 1; otherwise a
per-type table (linear in `count` for tree planting, half of `weight_kg` for
recycling, flat 5 for AQI data, 1 otherwise), capped at 1000. -/
def calculate_reward (metadata : Option Metadata) : Nat :=
  match metadata with
  | none => 1
  | some v =>
    let reward :=
      match v.type with
      | some "tree_planting" => v.count.getD 1 * 1
      | some "plastic_recycling" => ratToU64 (v.weight_kg.getD 1 * 0.5)
      | some "aqi_data" => 5
      | _ => 1
    if reward > 1000 then 1000 else reward

/-- Whether the pattern (first argument) heads the character list. -/
def startsWithChars : List Char → List Char → Bool
  | [], _ => true
  | _ :: _, [] => false
  | p :: ps, c :: cs => p = c && startsWithChars ps cs

/-- Rust `str::contains` for string patterns: the pattern occurs at some
offset of the string. -/
def strContains (s pat : String) : Bool :=
  (List.range (s.toList.length + 1)).any
    (fun i => startsWithChars pat.toList (s.toList.drop i))

/-- `Blockchain::run_ai_inference`: the simulated vision model.  URLs
containing "fake" or "stock" score 0.05; otherwise the score is a per-type
constant. -/
def run_ai_inference (image_url expected_type : String) : ℚ × String :=
  if strContains image_url "fake" || strContains image_url "stock" then
    (0.05, "stock_photo_detected")
  else
    match expected_type with
    | "tree_planting" => (0.98, "sapling_planted")
    | "plastic_recycling" => (0.92, "plastic_waste")
    | _ => (0.5, "unknown_object")

/-- `Blockchain::verify_iot_device`: registry membership. -/
def Blockchain.verify_iot_device (bc : Blockchain) (device_id : String) : Bool :=
  bc.authorized_devices.contains device_id

/-- Step 1 of `run_smart_security_check` (IoT device verification for
`aqi_data` tasks); `some msg` is an early rejection, `none` falls through. -/
def deviceCheck (bc : Blockchain) (m : Metadata) : Option String :=
  match m.type with
  | some task_type =>
    if task_type = "aqi_data" then
      match m.device_id with
      | some dev_id =>
        if bc.verify_iot_device dev_id then none
        else some ("⚠️  UNAUTHORIZED DEVICE: ID " ++ dev_id ++
          " is not in the trusted registry.")
      | none => some "⚠️  MISSING ID: AQI tasks must include a Device ID."
    else none
  | none => none

/-- Step 2 of `run_smart_security_check` (AI computer-vision check for
evidence-bearing task types). -/
def aiCheck (m : Metadata) : Option String :=
  match m.type with
  | some task_type =>
    if task_type = "tree_planting" ∨ task_type = "plastic_recycling" then
      match m.evidence with
      | some url =>
        if (run_ai_inference url task_type).1 < 0.70 then
          some "⚠️  AI REJECTION: Image does not appear to match task."
        else none
      | none => some "⚠️  MISSING PROOF: Photo evidence URL is required."
    else none
  | none => none

/-- Step 3 of `run_smart_security_check` (anomaly detection on `count`). -/
def anomalyCheck (m : Metadata) : Option String :=
  match m.count with
  | some count =>
    if count > 500 then
      some "⚠️  ANOMALY: Claiming >500 trees in one task is statistically improbable."
    else none
  | none => none

/-- `Blockchain::run_smart_security_check`: the three checks in order, first
failure wins. -/
def Blockchain.run_smart_security_check (bc : Blockchain) (m : Metadata) :
    Bool × String :=
  match deviceCheck bc m with
  | some msg => (false, msg)
  | none =>
    match aiCheck m with
    | some msg => (false, msg)
    | none =>
      match anomalyCheck m with
      | some msg => (false, msg)
      | none => (true, "✅ Automated Checks Passed.")

/-- `Blockchain::submit_task`.  Returns the transaction handed back to the
caller and the successor state. -/
def Blockchain.submit_task (bc : Blockchain) (wallet_address : String)
    (task : String) (proof_metadata : Option Metadata) :
    Option Transaction × Blockchain :=
  match getWallet bc.wallets wallet_address with
  | none => (none, bc)
  | some wallet =>
    if wallet.balance_yuki < bc.stake_amount then
      (none, bc)
    else
      let wallets1 :=
        adjustBalance bc.wallets wallet_address (fun b => b - bc.stake_amount)
      let calculated_reward := calculate_reward proof_metadata
      let transaction :=
        Transaction.new wallet_address "System-Reward-Pool" calculated_reward
          task proof_metadata
      (some transaction,
        { bc with
            wallets := wallets1
            tasks_for_validation := bc.tasks_for_validation ++ [transaction] })

/-- A console answer in the validation loop: `"a"`, `"r"`, or the catch-all
Skipped branch. -/
inductive Action where
  | approve
  | reject
  | skip
deriving DecidableEq

/-- The loop body of `validate_pending_tasks`, iterating the pool from the
highest index down (here: over the reversed pool), one console answer per
task.  The automated security check is printed as a recommendation only and
does not influence the transition.  Returns the broadcast results (in
iteration order), the skipped tasks (in iteration order) and the threaded
state (`tasks_for_validation` still stale, patched by the caller). -/
def validateRev (bc : Blockchain) :
    List Transaction → List Action →
    List (String × TaskStatus) × List Transaction × Blockchain
  | [], _ => ([], [], bc)
  | t :: rest, choices =>
    match choices.headD Action.skip with
    | Action.approve =>
      let t2 := { t with status := TaskStatus.Validated }
      let bc2 := { bc with tasks_for_mining := bc.tasks_for_mining ++ [t2] }
      let r := validateRev bc2 rest choices.tail
      ((t2.task, t2.status) :: r.1, r.2.1, r.2.2)
    | Action.reject =>
      let r := validateRev bc rest choices.tail
      ((t.task, TaskStatus.Rejected) :: r.1, r.2.1, r.2.2)
    | Action.skip =>
      let r := validateRev bc rest choices.tail
      (r.1, t :: r.2.1, r.2.2)

/-- `Blockchain::validate_pending_tasks`.  Iteration runs over indices
`len-1` down to `0`; removal-by-index keeps the skipped tasks in their
original relative order. -/
def Blockchain.validate_pending_tasks (choices : List Action)
    (bc : Blockchain) : List (String × TaskStatus) × Blockchain :=
  if bc.tasks_for_validation.isEmpty then
    ([], bc)
  else
    let r := validateRev bc bc.tasks_for_validation.reverse choices
    (r.1, { r.2.2 with tasks_for_validation := r.2.1.reverse })

/-- The drain loop of `mine_block` (`while let Some(task) = pop()`): tasks
are popped from the end of the mining pool, so the loop sees the reversed
pool; a task whose sender has a wallet is credited `amount + stake` — u64
addition, wrapping modulo `2 ^ 64` (release-build semantics; debug builds
panic on overflow) — is retargeted to its sender and joins the block,
otherwise it is dropped. -/
def drainRev (stake : Nat) :
    List Wallet → List Transaction → List Wallet × List Transaction
  | wallets, [] => (wallets, [])
  | wallets, task :: rest =>
    match getWallet wallets task.sender with
    | some _ =>
      let wallets2 :=
        adjustBalance wallets task.sender
          (fun b => (b + (task.amount + stake)) % 2 ^ 64)
      let task2 := { task with receiver := task.sender }
      let r := drainRev stake wallets2 rest
      (r.1, task2 :: r.2)
    | none => drainRev stake wallets rest

/-- `Blockchain::mine_block`.  The empty-pool early return leaves the state
untouched; otherwise the pool is drained entirely (even when nothing ends up
in the block).  `self.chain.last().unwrap()` cannot fail on a chain holding
genesis; the unreachable empty-chain branch is modelled as returning no
block. -/
def Blockchain.mine_block (hasher : BlockHasher) (now : Int)
    (bc : Blockchain) : Option Block × Blockchain :=
  if bc.tasks_for_mining.isEmpty then
    (none, bc)
  else
    let d := drainRev bc.stake_amount bc.wallets bc.tasks_for_mining.reverse
    let bc1 := { bc with wallets := d.1, tasks_for_mining := [] }
    if d.2.isEmpty then
      (none, bc1)
    else
      match bc.chain.getLast? with
      | none => (none, bc1)
      | some previous_block =>
        let new_block :=
          Block.new hasher now (previous_block.index + 1) d.2
            previous_block.hash
        (some new_block, { bc1 with chain := bc1.chain ++ [new_block] })

/-- The pool-cleanup loop of `add_block_from_network`: one `retain` per
transaction of the accepted block. -/
def removeSettled (txs : List Transaction) (pool : List Transaction) :
    List Transaction :=
  txs.foldl (fun p tx => p.filter (fun t => t.task ≠ tx.task)) pool

/-- `Blockchain::add_block_from_network`: append only when the incoming
block's `previous_hash` matches the tip's hash; on acceptance, drop settled
tasks from both pools.  A mismatch leaves the state untouched. -/
def Blockchain.add_block_from_network (bc : Blockchain) (block : Block) :
    Blockchain :=
  match bc.chain.getLast? with
  | none => bc
  | some previous_block =>
    if block.previous_hash = previous_block.hash then
      { bc with
          chain := bc.chain ++ [block]
          tasks_for_mining := removeSettled block.transactions bc.tasks_for_mining
          tasks_for_validation :=
            removeSettled block.transactions bc.tasks_for_validation }
    else bc

/-- `Blockchain::add_task_from_network`: insert only when no transaction in
either pool already bears the task id. -/
def Blockchain.add_task_from_network (bc : Blockchain) (tx : Transaction) :
    Blockchain :=
  if ¬ bc.tasks_for_validation.any (fun t => t.task == tx.task) ∧
     ¬ bc.tasks_for_mining.any (fun t => t.task == tx.task) then
    { bc with tasks_for_validation := bc.tasks_for_validation ++ [tx] }
  else bc

/-- `Blockchain::update_task_status_from_network`: move or drop the first
pending task bearing the reported id. -/
def Blockchain.update_task_status_from_network (bc : Blockchain)
    (task_id : String) (status : TaskStatus) : Blockchain :=
  match bc.tasks_for_validation.findIdx? (fun t => t.task == task_id) with
  | some pos =>
    match status with
    | TaskStatus.Validated =>
      match bc.tasks_for_validation[pos]? with
      | some task =>
        { bc with
            tasks_for_validation := bc.tasks_for_validation.eraseIdx pos
            tasks_for_mining := bc.tasks_for_mining ++ [task] }
      | none => bc
    | TaskStatus.Rejected =>
      { bc with tasks_for_validation := bc.tasks_for_validation.eraseIdx pos }
    | TaskStatus.PendingValidation => bc
  | none => bc

/-! ## Derived notions -/

/-- Chain integrity: every non-initial block's `previous_hash` equals its
predecessor's `hash`. -/
def Chained : List Block → Prop
  | b1 :: b2 :: rest => b2.previous_hash = b1.hash ∧ Chained (b2 :: rest)
  | _ => True

/-- The `balance_yuki` visible for an address, when the wallet exists. -/
def balanceOf (bc : Blockchain) (addr : String) : Option Nat :=
  (getWallet bc.wallets addr).map Wallet.balance_yuki

/-- No two transactions across the two pools share a task id. -/
def PoolsNodupTasks (bc : Blockchain) : Prop :=
  ((bc.tasks_for_validation ++ bc.tasks_for_mining).map Transaction.task).Nodup

instance (bc : Blockchain) : Decidable (PoolsNodupTasks bc) := by
  unfold PoolsNodupTasks
  infer_instance

/-- The ledger states reachable from a fresh ledger through the public
operations. -/
inductive Reachable : Blockchain → Prop
  | new (hasher : BlockHasher) (now : Int) (wallets0 : List Wallet) :
      Reachable (Blockchain.new hasher now wallets0)
  | submit (bc : Blockchain) (a t : String) (m : Option Metadata) :
      Reachable bc → Reachable (bc.submit_task a t m).2
  | validate (bc : Blockchain) (choices : List Action) :
      Reachable bc → Reachable (Blockchain.validate_pending_tasks choices bc).2
  | mine (bc : Blockchain) (hasher : BlockHasher) (now : Int) :
      Reachable bc → Reachable (Blockchain.mine_block hasher now bc).2
  | addBlock (bc : Blockchain) (b : Block) :
      Reachable bc → Reachable (bc.add_block_from_network b)
  | addTask (bc : Blockchain) (tx : Transaction) :
      Reachable bc → Reachable (bc.add_task_from_network tx)
  | updateStatus (bc : Blockchain) (id : String) (s : TaskStatus) :
      Reachable bc → Reachable (bc.update_task_status_from_network id s)

/-! ## Toolkit lemmas -/

theorem getWallet_adjustBalance_self (ws : List Wallet) (addr : String)
    (f : Nat → Nat) :
    getWallet (adjustBalance ws addr f) addr =
      (getWallet ws addr).map
        (fun w => { w with balance_yuki := f w.balance_yuki }) := by
  induction ws with
  | nil => rfl
  | cons w ws ih =>
    by_cases h : w.address = addr
    · simp [adjustBalance, getWallet, h]
    · simpa [adjustBalance, getWallet, h] using ih

theorem getWallet_adjustBalance_ne (ws : List Wallet) (addr a : String)
    (f : Nat → Nat) (h : a ≠ addr) :
    getWallet (adjustBalance ws addr f) a = getWallet ws a := by
  induction ws with
  | nil => rfl
  | cons w ws ih =>
    by_cases hw : w.address = addr
    · have hwa : ¬ w.address = a := by rw [hw]; exact fun hc => h hc.symm
      simp [adjustBalance, getWallet, hw, hwa, Ne.symm h]
    · by_cases hwa : w.address = a
      · simp [adjustBalance, getWallet, hw, hwa, h]
      · simpa [adjustBalance, getWallet, hw, hwa, h] using ih

theorem getWallet_adjustBalance_isSome (ws : List Wallet) (addr a : String)
    (f : Nat → Nat) :
    (getWallet (adjustBalance ws addr f) a).isSome =
      (getWallet ws a).isSome := by
  by_cases h : a = addr
  · subst h; rw [getWallet_adjustBalance_self]; cases getWallet ws a <;> rfl
  · rw [getWallet_adjustBalance_ne ws addr a f h]

theorem validateRev_preserve (l : List Transaction) :
    ∀ (bc : Blockchain) (c : List Action),
      (validateRev bc l c).2.2.chain = bc.chain ∧
      (validateRev bc l c).2.2.wallets = bc.wallets ∧
      (validateRev bc l c).2.2.stake_amount = bc.stake_amount ∧
      (validateRev bc l c).2.2.authorized_devices = bc.authorized_devices ∧
      (validateRev bc l c).2.2.tasks_for_validation = bc.tasks_for_validation := by
  induction l with
  | nil => intro bc c; exact ⟨rfl, rfl, rfl, rfl, rfl⟩
  | cons t rest ih =>
    intro bc c
    cases c with
    | nil => simpa [validateRev] using ih _ []
    | cons a c2 => cases a <;> simpa [validateRev] using ih _ c2

theorem validateRev_skipAll (l : List Transaction) :
    ∀ bc : Blockchain, validateRev bc l [] = ([], l, bc) := by
  induction l with
  | nil => intro bc; rfl
  | cons t rest ih => intro bc; simp [validateRev, ih]

theorem drainRev_allMissing (stake : Nat) (pool : List Transaction) :
    ∀ ws : List Wallet, (∀ t ∈ pool, getWallet ws t.sender = none) →
      drainRev stake ws pool = (ws, []) := by
  induction pool with
  | nil => intro ws _; rfl
  | cons t rest ih =>
    intro ws h
    have ht : getWallet ws t.sender = none := h t (List.mem_cons_self t rest)
    have hr := ih ws (fun u hu => h u (List.mem_cons_of_mem t hu))
    simp [drainRev, ht, hr]

theorem drainRev_senders_present (stake : Nat) (pool : List Transaction) :
    ∀ ws : List Wallet, ∀ t ∈ (drainRev stake ws pool).2,
      (getWallet ws t.sender).isSome := by
  induction pool with
  | nil => intro ws t ht; simp [drainRev] at ht
  | cons u rest ih =>
    intro ws t ht
    cases hu : getWallet ws u.sender with
    | none =>
      rw [drainRev, hu] at ht
      exact ih ws t ht
    | some w =>
      rw [drainRev, hu] at ht
      simp only [List.mem_cons] at ht
      rcases ht with h1 | h2
      · subst h1; simp [hu]
      · have := ih _ t h2
        rwa [getWallet_adjustBalance_isSome] at this

theorem Chained_append (l : List Block) (b tip : Block)
    (hl : Chained l) (htip : l.getLast? = some tip)
    (hb : b.previous_hash = tip.hash) : Chained (l ++ [b]) := by
  induction l with
  | nil => cases htip
  | cons a rest ih =>
    cases rest with
    | nil =>
      cases htip
      exact ⟨hb, trivial⟩
    | cons a2 rest2 =>
      have hlast : (a2 :: rest2).getLast? = some tip := by
        simpa [List.getLast?] using htip
      exact ⟨hl.1, ih hl.2 hlast⟩

theorem chain_submit (bc : Blockchain) (a t : String) (m : Option Metadata) :
    (bc.submit_task a t m).2.chain = bc.chain := by
  unfold Blockchain.submit_task
  cases getWallet bc.wallets a with
  | none => rfl
  | some w => by_cases h : w.balance_yuki < bc.stake_amount <;> simp [h]

theorem chain_validate (bc : Blockchain) (choices : List Action) :
    (Blockchain.validate_pending_tasks choices bc).2.chain = bc.chain := by
  unfold Blockchain.validate_pending_tasks
  by_cases h : bc.tasks_for_validation.isEmpty <;>
    simp [h, (validateRev_preserve _ _ _).1]

theorem chain_add_task (bc : Blockchain) (tx : Transaction) :
    (bc.add_task_from_network tx).chain = bc.chain := by
  unfold Blockchain.add_task_from_network
  split <;> rfl

theorem chain_update_status (bc : Blockchain) (id : String) (s : TaskStatus) :
    (bc.update_task_status_from_network id s).chain = bc.chain := by
  unfold Blockchain.update_task_status_from_network
  cases hf : bc.tasks_for_validation.findIdx? (fun t => t.task == id) with
  | none => rfl
  | some pos =>
    cases s
    · rfl
    · cases hg : bc.tasks_for_validation[pos]? <;> simp [hg]
    · rfl

theorem Chained_mine (bc : Blockchain) (hasher : BlockHasher) (now : Int)
    (h : Chained bc.chain) :
    Chained (Blockchain.mine_block hasher now bc).2.chain := by
  unfold Blockchain.mine_block
  by_cases hp : bc.tasks_for_mining.isEmpty
  · simpa [hp]
  · simp only [hp, if_false, Bool.false_eq_true]
    by_cases hd :
        (drainRev bc.stake_amount bc.wallets bc.tasks_for_mining.reverse).2.isEmpty
    · simpa [hd]
    · simp only [hd, if_false, Bool.false_eq_true]
      cases htip : bc.chain.getLast? with
      | none => simpa
      | some previous_block =>
        simpa using Chained_append bc.chain _ previous_block h htip rfl

theorem Chained_add_block (bc : Blockchain) (b : Block)
    (h : Chained bc.chain) :
    Chained (bc.add_block_from_network b).chain := by
  unfold Blockchain.add_block_from_network
  cases htip : bc.chain.getLast? with
  | none => simpa
  | some previous_block =>
    by_cases hm : b.previous_hash = previous_block.hash
    · simpa [hm] using Chained_append bc.chain b previous_block h htip hm
    · simpa [hm]

theorem check_depends_only_on_devices (bc bc2 : Blockchain) (m : Metadata)
    (h : bc.authorized_devices = bc2.authorized_devices) :
    bc.run_smart_security_check m = bc2.run_smart_security_check m := by
  unfold Blockchain.run_smart_security_check deviceCheck
    Blockchain.verify_iot_device
  rw [h]

theorem devices_validate (bc : Blockchain) (choices : List Action) :
    (Blockchain.validate_pending_tasks choices bc).2.authorized_devices =
      bc.authorized_devices := by
  unfold Blockchain.validate_pending_tasks
  by_cases h : bc.tasks_for_validation.isEmpty <;>
    simp [h, (validateRev_preserve _ _ _).2.2.2.1]

theorem isEmpty_append_singleton (l : List Transaction) (x : Transaction) :
    (l ++ [x]).isEmpty = false := by
  cases l <;> rfl

theorem calculate_reward_le (m : Option Metadata) :
    calculate_reward m ≤ 1000 := by
  cases m with
  | none => simp [calculate_reward]
  | some v =>
    simp only [calculate_reward]
    split <;> omega

/-! ## Concrete fixtures for witnesses and counterexamples -/

/-- A concrete digest function standing in for SHA-256 in closed statements
(none of the evaluated behaviour depends on digest values). -/
def hasher0 : BlockHasher := fun _ _ _ _ => "h0"

/-- A funded wallet. -/
def walletW : Wallet :=
  { address := "w", balance_yuki := 20, balance_yg := 0, balance_yt := 0 }

/-- Well-formed tree-planting metadata with a non-fake evidence URL. -/
def mTree : Metadata :=
  { type := some "tree_planting", count := some 3, weight_kg := none,
    device_id := none, evidence := some "http://img.jpg",
    tons_captured := none }

/-- A carbon-capture claim declaring 75 tons; the code reads none of its
fields besides the absent `count`/`type`-specific ones. -/
def mTons : Metadata :=
  { type := some "carbon_capture", count := none, weight_kg := none,
    device_id := none, evidence := none, tons_captured := some 75 }

/-- A genesis-like tip whose hash is `"h"`. -/
def b0Tip : Block :=
  { index := 0, timestamp := 0, transactions := [], previous_hash := "0",
    hash := "h" }

/-- A ledger whose chain is just `b0Tip`. -/
def bcTip : Blockchain :=
  { chain := [b0Tip], wallets := [], stake_amount := 5,
    tasks_for_validation := [], tasks_for_mining := [],
    authorized_devices := [] }

/-- A well-linked successor of `b0Tip`. -/
def bGood : Block :=
  { index := 1, timestamp := 0, transactions := [], previous_hash := "h",
    hash := "g" }

/-- A block whose `previous_hash` matches nothing on `bcTip`. -/
def bStale : Block :=
  { index := 1, timestamp := 0, transactions := [], previous_hash := "x",
    hash := "g" }

/-- A forged block whose stored `hash` equals its `previous_hash` (the
ingestion path never recomputes or checks the `hash` field). -/
def bForged : Block :=
  { index := 1, timestamp := 0, transactions := [], previous_hash := "h",
    hash := "h" }

/-- Fresh ledger with the one funded wallet. -/
def bcW : Blockchain := Blockchain.new hasher0 0 [walletW]

/-- Two submissions carrying the identical evidence URL (`mTree` twice). -/
def bcTwoSameEvidence : Blockchain :=
  (((bcW.submit_task "w" "task-a" (some mTree)).2).submit_task "w" "task-b"
    (some mTree)).2

/-! ## Claims -/

/-- C2: every ledger state reachable from a fresh ledger through the public
operations satisfies chain integrity — each block's `previous_hash` equals
its predecessor's `hash`; in particular local mining and peer-block
ingestion preserve the invariant from the genesis chain on. -/
theorem C2_chain_integrity (bc : Blockchain) (h : Reachable bc) :
    Chained bc.chain := by
  induction h with
  | new hasher now wallets0 => exact trivial
  | submit bc a t m _ ih => rw [chain_submit]; exact ih
  | validate bc choices _ ih => rw [chain_validate]; exact ih
  | mine bc hasher now _ ih => exact Chained_mine bc hasher now ih
  | addBlock bc b _ ih => exact Chained_add_block bc b ih
  | addTask bc tx _ ih => rw [chain_add_task]; exact ih
  | updateStatus bc id s _ ih => rw [chain_update_status]; exact ih

/-- C2 witness: chain integrity holds at a concrete reachable state. -/
theorem C2_chain_integrity_witness :
    Chained ((bcW.submit_task "w" "task-a" (some mTree)).2).chain :=
  C2_chain_integrity _
    (Reachable.submit _ _ _ _ (Reachable.new hasher0 0 [walletW]))

/-- C3: a peer block is appended as the new tip exactly when its
`previous_hash` equals the tip's hash; on a mismatch the whole state —
chain, both pools, wallets — is left untouched. -/
theorem C3_append_contract (bc : Blockchain) (b tip : Block)
    (htip : bc.chain.getLast? = some tip) :
    (b.previous_hash = tip.hash →
      (bc.add_block_from_network b).chain = bc.chain ++ [b] ∧
      (bc.add_block_from_network b).chain.getLast? = some b) ∧
    (b.previous_hash ≠ tip.hash → bc.add_block_from_network b = bc) := by
  constructor
  · intro hm
    unfold Blockchain.add_block_from_network
    rw [htip]
    simp [hm]
  · intro hm
    unfold Blockchain.add_block_from_network
    rw [htip]
    simp [hm]

/-- C3 witness: on `bcTip`, the well-linked block is appended as the new
tip and the stale block is discarded with the state unchanged. -/
theorem C3_append_contract_witness :
    (bcTip.add_block_from_network bGood).chain = bcTip.chain ++ [bGood] ∧
    bcTip.add_block_from_network bStale = bcTip :=
  ⟨((C3_append_contract bcTip bGood b0Tip (by decide)).1 (by decide)).1,
    (C3_append_contract bcTip bStale b0Tip (by decide)).2 (by decide)⟩

/-- C5 counterexample: submitting the same task name twice from the same
wallet creates two pooled transactions sharing the task id — local
submission performs no dedup check, so the claimed system-wide uniqueness
invariant fails. -/
theorem C5_counterexample :
    (((bcW.submit_task "w" "task-a" (some mTree)).2).submit_task "w"
          "task-a" (some mTree)).2.tasks_for_validation.map Transaction.task =
        ["task-a", "task-a"] ∧
    ¬ PoolsNodupTasks
        (((bcW.submit_task "w" "task-a" (some mTree)).2).submit_task "w"
          "task-a" (some mTree)).2 := by
  constructor
  · rfl
  · decide

/-- C5 as amended: only the peer-received New-task insert deduplicates, and
only against the two pools — it preserves task-id uniqueness across the
union of the pools (it inserts nothing when the id is already pooled);
local submissions and mined blocks are never checked. -/
theorem C5_amended_network_insert_nodup (bc : Blockchain) (tx : Transaction)
    (h : PoolsNodupTasks bc) :
    PoolsNodupTasks (bc.add_task_from_network tx) := by
  unfold Blockchain.add_task_from_network
  split
  · next hcond =>
    unfold PoolsNodupTasks at h ⊢
    simp only []
    have hperm :
        ((bc.tasks_for_validation ++ [tx]) ++ bc.tasks_for_mining).map
            Transaction.task =
          (bc.tasks_for_validation ++ tx :: bc.tasks_for_mining).map
            Transaction.task := by
      simp
    rw [hperm]
    have hmid :
        List.Perm
          ((bc.tasks_for_validation ++ tx :: bc.tasks_for_mining).map
            Transaction.task)
          (tx.task ::
            (bc.tasks_for_validation ++ bc.tasks_for_mining).map
              Transaction.task) := by
      simp
    refine (hmid.nodup_iff).mpr ?_
    refine List.Nodup.cons ?_ h
    intro hmem
    simp only [List.map_append, List.mem_append, List.mem_map] at hmem
    rcases hcond with ⟨h1, h2⟩
    rcases hmem with ⟨u, hu, hut⟩ | ⟨u, hu, hut⟩
    · exact h1 (List.any_eq_true.mpr ⟨u, hu, by simp [hut]⟩)
    · exact h2 (List.any_eq_true.mpr ⟨u, hu, by simp [hut]⟩)
  · exact h

/-- C5 witness: the amended preservation applied at a concrete state. -/
theorem C5_amended_network_insert_nodup_witness :
    PoolsNodupTasks
      ((Blockchain.new hasher0 0 []).add_task_from_network
        (Transaction.new "w" "System-Reward-Pool" 3 "task-a" (some mTree))) :=
  C5_amended_network_insert_nodup _ _ (by decide)

/-- C7 counterexample: New-block ingestion never validates the stored
`hash` field, so a forged block whose `hash` equals its `previous_hash`
(equal to the tip hash) is appended on every application: applying the same
message twice duplicates the block and its index. -/
theorem C7_counterexample :
    ((bcTip.add_block_from_network bForged).add_block_from_network
          bForged).chain.map Block.index = [0, 1, 1] ∧
    (bcTip.add_block_from_network bForged).chain.map Block.index = [0, 1] ∧
    (bcTip.add_block_from_network bForged).add_block_from_network bForged ≠
      bcTip.add_block_from_network bForged := by
  refine ⟨rfl, rfl, ?_⟩
  decide

/-- C7 as amended: applying the same New-task message twice equals applying
it once; the same holds for a New-block message provided the block's stored
`hash` differs from its `previous_hash` — the one case a correctly hashed
block cannot trigger but a forged one can, since ingestion never checks the
`hash` field. -/
theorem C7_amended_idempotence :
    (∀ (bc : Blockchain) (tx : Transaction),
      (bc.add_task_from_network tx).add_task_from_network tx =
        bc.add_task_from_network tx) ∧
    ∀ (bc : Blockchain) (b : Block), b.hash ≠ b.previous_hash →
      (bc.add_block_from_network b).add_block_from_network b =
        bc.add_block_from_network b := by
  constructor
  · intro bc tx
    unfold Blockchain.add_task_from_network
    by_cases h1 : bc.tasks_for_validation.any (fun t => t.task == tx.task)
    · simp [h1]
    · by_cases h2 : bc.tasks_for_mining.any (fun t => t.task == tx.task)
      · simp [h1, h2]
      · simp [h1, h2]
  · intro bc b hb
    unfold Blockchain.add_block_from_network
    cases htip : bc.chain.getLast? with
    | none => simp [htip]
    | some tip =>
      by_cases hm : b.previous_hash = tip.hash
      · simp only [htip, hm, if_pos rfl, if_true, List.getLast?_concat]
        rw [if_neg]
        intro hc
        exact hb (hc.symm.trans hm.symm)
      · simp [htip, hm]

/-- C7 witness: the amended idempotence at a concrete genuinely hashed
block. -/
theorem C7_amended_idempotence_witness :
    (bcTip.add_block_from_network bGood).add_block_from_network bGood =
      bcTip.add_block_from_network bGood :=
  C7_amended_idempotence.2 bcTip bGood (by decide)

/-- C1 counterexample: two claims submitted with the identical evidence
token both pass the automated security check and both get approved by the
validation pass — the second is not rejected (there is no replay
detection), refuting the claimed ReplayDetected behaviour. -/
theorem C1_counterexample :
    (bcTwoSameEvidence.run_smart_security_check mTree).1 = true ∧
    (Blockchain.validate_pending_tasks [Action.approve, Action.approve]
        bcTwoSameEvidence).1 =
      [("task-b", TaskStatus.Validated), ("task-a", TaskStatus.Validated)] ∧
    (Blockchain.validate_pending_tasks [Action.approve, Action.approve]
        bcTwoSameEvidence).2.tasks_for_mining.map Transaction.task =
      ["task-b", "task-a"] := by
  refine ⟨?_, by decide, by decide⟩
  have hd : deviceCheck bcTwoSameEvidence mTree = none := rfl
  have hs : (strContains "http://img.jpg" "fake" ||
      strContains "http://img.jpg" "stock") = false := by decide
  have ha : aiCheck mTree = none := by
    simp only [aiCheck, mTree, run_ai_inference, hs]
    norm_num
  have han : anomalyCheck mTree = none := rfl
  unfold Blockchain.run_smart_security_check
  rw [hd, ha, han]

/-- C1 as amended: the ledger keeps no consumed-evidence-token set — the
automated security check is a pure function of the device registry and the
claim's metadata, unchanged by any validation pass; hence a later claim
bearing an evidence token identical to an accepted one receives exactly the
same verdict instead of a replay rejection. -/
theorem C1_amended_no_replay :
    (∀ (bc bc2 : Blockchain) (m : Metadata),
      bc.authorized_devices = bc2.authorized_devices →
      bc.run_smart_security_check m = bc2.run_smart_security_check m) ∧
    ∀ (bc : Blockchain) (choices : List Action) (m : Metadata),
      (Blockchain.validate_pending_tasks choices
          bc).2.run_smart_security_check m =
        bc.run_smart_security_check m := by
  refine ⟨check_depends_only_on_devices, ?_⟩
  intro bc choices m
  exact check_depends_only_on_devices _ _ m (devices_validate bc choices)

/-- C1 witness: the state-independence of the check at concrete states. -/
theorem C1_amended_no_replay_witness :
    bcW.run_smart_security_check mTree =
      bcTwoSameEvidence.run_smart_security_check mTree :=
  C1_amended_no_replay.1 bcW bcTwoSameEvidence mTree (by decide)

/-- C8 counterexample: a claim declaring `tons_captured = 75` passes the
security check — the code never reads that field, so no AnomalyExceeded
rejection happens. -/
theorem C8_counterexample :
    mTons.tons_captured = some 75 ∧
    (Blockchain.new hasher0 0 []).run_smart_security_check mTons =
      (true, "✅ Automated Checks Passed.") := by
  decide

/-- C8 as amended: the only physical-limit anomaly check is on the `count`
field — when the device and evidence checks pass and `count` exceeds 500,
the claim is rejected with the anomaly outcome; every other numeric field
(`tons_captured` in particular) is ignored entirely. -/
theorem C8_amended_anomaly :
    (∀ (bc : Blockchain) (m : Metadata) (c : Nat),
      deviceCheck bc m = none → aiCheck m = none → m.count = some c →
      500 < c →
      bc.run_smart_security_check m =
        (false,
          "⚠️  ANOMALY: Claiming >500 trees in one task is statistically improbable.")) ∧
    ∀ (bc : Blockchain) (m : Metadata) (x : Option Nat),
      bc.run_smart_security_check { m with tons_captured := x } =
        bc.run_smart_security_check m := by
  constructor
  · intro bc m c h1 h2 hc hgt
    unfold Blockchain.run_smart_security_check
    rw [h1, h2]
    unfold anomalyCheck
    rw [hc]
    simp [hgt]
  · intro bc m x
    rfl

/-- A claim with an out-of-range count and nothing else. -/
def mBigCount : Metadata :=
  { type := none, count := some 501, weight_kg := none, device_id := none,
    evidence := none, tons_captured := none }

/-- C8 witness: the amended anomaly rejection at a concrete claim. -/
theorem C8_amended_anomaly_witness :
    (Blockchain.new hasher0 0 []).run_smart_security_check mBigCount =
      (false,
        "⚠️  ANOMALY: Claiming >500 trees in one task is statistically improbable.") :=
  C8_amended_anomaly.1 _ mBigCount 501 rfl rfl rfl (by decide)

/-- C9 counterexample: the plausibility score produced for a clean
tree-planting URL is 0.98, which is not `k/255` for any byte `k` — so the
score cannot be the leading byte of any digest interpreted over 255,
refuting the claimed digest-based scheme. -/
theorem C9_counterexample :
    (run_ai_inference "http://img.jpg" "tree_planting").1 = 0.98 ∧
    ∀ k : Fin 256,
      ((k.val : ℚ) / 255) ≠
        (run_ai_inference "http://img.jpg" "tree_planting").1 := by
  have hscore : (run_ai_inference "http://img.jpg" "tree_planting").1 =
      0.98 := rfl
  refine ⟨hscore, ?_⟩
  intro k hk
  rw [hscore, div_eq_iff (by norm_num : (255 : ℚ) ≠ 0)] at hk
  have h2 : ((k.val * 10 : Nat) : ℚ) = 2499 := by
    push_cast
    rw [hk]
    norm_num
  have h3 : (k.val * 10 : Nat) = 2499 := by exact_mod_cast h2
  omega

/-- C9 as amended: the score is a hardcoded simulation, not digest-derived —
0.05 whenever the evidence URL contains "fake" or "stock", otherwise a
per-type constant (0.98 for tree planting, 0.92 for plastic recycling); the
evidence check rejects as low-confidence exactly when the score falls below
the fixed 0.70 threshold, i.e. exactly when the URL contains "fake" or
"stock". -/
theorem C9_amended_scores :
    ∀ (m : Metadata) (t url : String),
      t = "tree_planting" ∨ t = "plastic_recycling" →
      m.type = some t → m.evidence = some url →
      ((run_ai_inference url t).1 =
        if strContains url "fake" || strContains url "stock" then 0.05
        else if t = "tree_planting" then 0.98 else 0.92) ∧
      ((run_ai_inference url t).1 < 0.70 ↔
        (strContains url "fake" || strContains url "stock") = true) ∧
      (aiCheck m = none ↔
        ¬ (strContains url "fake" || strContains url "stock") = true) := by
  intro m t url ht hty hev
  have hscore : (run_ai_inference url t).1 =
      if strContains url "fake" || strContains url "stock" then 0.05
      else if t = "tree_planting" then 0.98 else 0.92 := by
    rcases ht with rfl | rfl <;>
      cases hc : strContains url "fake" || strContains url "stock" <;>
        simp [run_ai_inference, hc]
  have hai : aiCheck m =
      if (run_ai_inference url t).1 < 0.70 then
        some "⚠️  AI REJECTION: Image does not appear to match task."
      else none := by
    unfold aiCheck
    rw [hty]
    rcases ht with rfl | rfl <;> simp [hev]
  have hlt : (run_ai_inference url t).1 < 0.70 ↔
      (strContains url "fake" || strContains url "stock") = true := by
    rw [hscore]
    rcases ht with rfl | rfl <;>
      cases hc : strContains url "fake" || strContains url "stock" <;>
        simp [hc] <;> norm_num
  refine ⟨hscore, hlt, ?_⟩
  rw [hai]
  by_cases hcc : (strContains url "fake" || strContains url "stock") = true
  · rw [if_pos (hlt.mpr hcc)]
    simp [hcc]
  · rw [if_neg (fun hl => hcc (hlt.mp hl))]
    simp [hcc]

/-- Clean tree-planting metadata whose URL trips the "fake" detector. -/
def mFake : Metadata :=
  { type := some "tree_planting", count := some 3, weight_kg := none,
    device_id := none, evidence := some "http://fake.jpg",
    tons_captured := none }

/-- C9 witness: the amended score characterisation at a concrete fake URL. -/
theorem C9_amended_scores_witness :
    ((run_ai_inference "http://fake.jpg" "tree_planting").1 =
      if strContains "http://fake.jpg" "fake" ||
          strContains "http://fake.jpg" "stock" then 0.05
      else if "tree_planting" = "tree_planting" then 0.98 else 0.92) ∧
    ((run_ai_inference "http://fake.jpg" "tree_planting").1 < 0.70 ↔
      (strContains "http://fake.jpg" "fake" ||
        strContains "http://fake.jpg" "stock") = true) ∧
    (aiCheck mFake = none ↔
      ¬ (strContains "http://fake.jpg" "fake" ||
          strContains "http://fake.jpg" "stock") = true) :=
  C9_amended_scores mFake "tree_planting" "http://fake.jpg" (Or.inl rfl)
    rfl rfl

/-- C6: submission with a missing wallet or a balance below the stake
returns no transaction and leaves the state untouched; with sufficient
balance the stake is withheld at once, the reward comes from the per-type
table capped at 1000, and a PendingValidation transaction is appended to
the validation pool (chain and mining pool untouched). -/
theorem C6_submission_contract :
    (∀ (bc : Blockchain) (addr t : String) (m : Option Metadata),
      getWallet bc.wallets addr = none →
      bc.submit_task addr t m = (none, bc)) ∧
    (∀ (bc : Blockchain) (addr t : String) (m : Option Metadata) (w : Wallet),
      getWallet bc.wallets addr = some w →
      w.balance_yuki < bc.stake_amount →
      bc.submit_task addr t m = (none, bc)) ∧
    ∀ (bc : Blockchain) (addr t : String) (m : Option Metadata) (w : Wallet),
      getWallet bc.wallets addr = some w →
      bc.stake_amount ≤ w.balance_yuki →
      ∃ tx, (bc.submit_task addr t m).1 = some tx ∧
        tx.status = TaskStatus.PendingValidation ∧
        tx.amount = calculate_reward m ∧
        calculate_reward m ≤ 1000 ∧
        tx.sender = addr ∧
        (bc.submit_task addr t m).2.tasks_for_validation =
          bc.tasks_for_validation ++ [tx] ∧
        balanceOf (bc.submit_task addr t m).2 addr =
          some (w.balance_yuki - bc.stake_amount) ∧
        (bc.submit_task addr t m).2.chain = bc.chain ∧
        (bc.submit_task addr t m).2.tasks_for_mining =
          bc.tasks_for_mining := by
  refine ⟨?_, ?_, ?_⟩
  · intro bc addr t m h
    unfold Blockchain.submit_task
    rw [h]
  · intro bc addr t m w h hlt
    unfold Blockchain.submit_task
    simp only [h]
    rw [if_pos hlt]
  · intro bc addr t m w h hle
    have hnlt : ¬ w.balance_yuki < bc.stake_amount := not_lt.mpr hle
    have hsub : bc.submit_task addr t m =
        (some (Transaction.new addr "System-Reward-Pool"
            (calculate_reward m) t m),
          { bc with
              wallets :=
                adjustBalance bc.wallets addr (fun b => b - bc.stake_amount)
              tasks_for_validation := bc.tasks_for_validation ++
                [Transaction.new addr "System-Reward-Pool"
                  (calculate_reward m) t m] }) := by
      unfold Blockchain.submit_task
      simp only [h]
      rw [if_neg hnlt]
    refine ⟨Transaction.new addr "System-Reward-Pool" (calculate_reward m)
        t m, by rw [hsub], rfl, rfl, calculate_reward_le m, rfl,
      by rw [hsub], ?_, by rw [hsub], by rw [hsub]⟩
    rw [hsub]
    unfold balanceOf
    simp [getWallet_adjustBalance_self, h]

/-- An underfunded wallet. -/
def walletPoor : Wallet :=
  { address := "p", balance_yuki := 3, balance_yg := 0, balance_yt := 0 }

/-- Fresh ledger with only the underfunded wallet. -/
def bcPoor : Blockchain := Blockchain.new hasher0 0 [walletPoor]

/-- C6 witness: the three submission branches at concrete states. -/
theorem C6_submission_contract_witness :
    bcPoor.submit_task "nope" "t1" (some mTree) = (none, bcPoor) ∧
    bcPoor.submit_task "p" "t1" (some mTree) = (none, bcPoor) ∧
    ∃ tx, (bcW.submit_task "w" "t1" (some mTree)).1 = some tx ∧
      tx.status = TaskStatus.PendingValidation ∧
      balanceOf (bcW.submit_task "w" "t1" (some mTree)).2 "w" = some 15 := by
  refine ⟨C6_submission_contract.1 _ _ _ _ rfl,
    C6_submission_contract.2.1 _ _ _ _ walletPoor rfl (by decide), ?_⟩
  obtain ⟨tx, h1, h2, _, _, _, _, h7, _, _⟩ :=
    C6_submission_contract.2.2 bcW "w" "t1" (some mTree) walletW rfl
      (by decide)
  exact ⟨tx, h1, h2, h7⟩

/-- C10: a drained transaction whose sender has no wallet is silently
dropped — never credited and never placed in the block (every transaction
of a mined block has a sender wallet); when every drained sender lacks a
wallet, mining returns no block and leaves chain and wallets untouched,
yet the mining pool has been emptied and those transactions are lost. -/
theorem C10_missing_sender_wallets :
    (∀ (bc : Blockchain) (hasher : BlockHasher) (now : Int),
      (∀ t ∈ bc.tasks_for_mining, getWallet bc.wallets t.sender = none) →
      bc.tasks_for_mining ≠ [] →
      Blockchain.mine_block hasher now bc =
        (none, { bc with tasks_for_mining := [] })) ∧
    ∀ (bc : Blockchain) (hasher : BlockHasher) (now : Int) (b : Block),
      (Blockchain.mine_block hasher now bc).1 = some b →
      ∀ t ∈ b.transactions, (getWallet bc.wallets t.sender).isSome := by
  constructor
  · intro bc hasher now hmiss hne
    have hE : bc.tasks_for_mining.isEmpty = false := by
      cases hl : bc.tasks_for_mining with
      | nil => exact absurd hl hne
      | cons t ts => rfl
    have hdrain :
        drainRev bc.stake_amount bc.wallets bc.tasks_for_mining.reverse =
          (bc.wallets, []) :=
      drainRev_allMissing _ _ _
        (fun t ht => hmiss t (List.mem_reverse.mp ht))
    simp only [Blockchain.mine_block, hE, Bool.false_eq_true, if_false,
      hdrain, List.isEmpty_nil, if_true]
  · intro bc hasher now b hb t ht
    simp only [Blockchain.mine_block] at hb
    by_cases hE : bc.tasks_for_mining.isEmpty
    · rw [if_pos hE] at hb
      simp at hb
    · rw [if_neg hE] at hb
      by_cases hd :
          (drainRev bc.stake_amount bc.wallets
            bc.tasks_for_mining.reverse).2.isEmpty
      · rw [if_pos hd] at hb
        simp at hb
      · rw [if_neg hd] at hb
        cases htip : bc.chain.getLast? with
        | none =>
          rw [htip] at hb
          simp at hb
        | some p =>
          rw [htip] at hb
          have hbeq : Block.new hasher now (p.index + 1)
              (drainRev bc.stake_amount bc.wallets
                bc.tasks_for_mining.reverse).2 p.hash = b := by
            simpa using hb
          have htx : t ∈ (drainRev bc.stake_amount bc.wallets
              bc.tasks_for_mining.reverse).2 := by
            rw [← hbeq] at ht
            exact ht
          exact drainRev_senders_present _ _ _ t htx

/-- A validated task whose sender wallet does not exist. -/
def txGhost : Transaction :=
  { sender := "ghost", receiver := "System-Reward-Pool", amount := 3,
    task := "task-g", proof_metadata := some mTree,
    status := TaskStatus.Validated }

/-- A ledger whose only minable task has no backing wallet. -/
def bcGhost : Blockchain :=
  { chain := [b0Tip], wallets := [], stake_amount := 5,
    tasks_for_validation := [], tasks_for_mining := [txGhost],
    authorized_devices := [] }

/-- C10 witness: mining the ghost pool yields no block and only empties the
pool. -/
theorem C10_missing_sender_wallets_witness :
    Blockchain.mine_block hasher0 0 bcGhost =
      (none, { bcGhost with tasks_for_mining := [] }) :=
  C10_missing_sender_wallets.1 bcGhost hasher0 0 (by decide) (by decide)

/-- A wallet holding the largest representable u64 balance (loadable
through the persisted wallet file). -/
def walletRich : Wallet :=
  { address := "r", balance_yuki := 18446744073709551615, balance_yg := 0,
    balance_yt := 0 }

/-- Fresh ledger with only the maximally funded wallet. -/
def bcRich : Blockchain := Blockchain.new hasher0 0 [walletRich]

/-- C4 counterexample: at the u64 boundary the mining credit wraps — the
wallet starting at `2 ^ 64 - 1` is staked down by 5, but mining the
approved reward-3 claim leaves balance 2 (the credit `+ 8` wrapped modulo
`2 ^ 64`), not the claimed old balance plus the reward: the exact
`+ amount + stake_amount` accounting fails on a program-representable
state. -/
theorem C4_counterexample :
    balanceOf (bcRich.submit_task "r" "task-a" (some mTree)).2 "r" =
      some 18446744073709551610 ∧
    balanceOf (Blockchain.mine_block hasher0 0
        (Blockchain.validate_pending_tasks [Action.approve]
          (bcRich.submit_task "r" "task-a" (some mTree)).2).2).2 "r" =
      some 2 ∧
    (2 : Nat) ≠ 18446744073709551610 + (3 + 5) ∧
    (2 : Nat) ≠ 18446744073709551615 + 3 := by
  refine ⟨by decide, by decide, by decide, by decide⟩

/-- C4 as amended: over the successful lifecycle of a submission (wallet
present with balance at least the stake, the claim approved by the
validation pass, the block mined from a pool holding just this claim),
the sender's balance drops by exactly `stake_amount` at submission time
and — provided the pre-submission balance plus the reward stays below
`2 ^ 64` — rises by exactly `amount + stake_amount` at mining time, a net
gain of `amount`; at the u64 boundary the release-build credit wraps
modulo `2 ^ 64` instead (debug builds panic). -/
theorem C4_lifecycle (bc : Blockchain) (hasher : BlockHasher) (now : Int)
    (addr taskName : String) (m : Option Metadata) (w : Wallet)
    (hw : getWallet bc.wallets addr = some w)
    (hbal : bc.stake_amount ≤ w.balance_yuki)
    (hnof : w.balance_yuki + calculate_reward m < 2 ^ 64)
    (hpool : bc.tasks_for_mining = [])
    (hchain : bc.chain ≠ []) :
    ∃ tx, (bc.submit_task addr taskName m).1 = some tx ∧
      tx.amount = calculate_reward m ∧
      balanceOf (bc.submit_task addr taskName m).2 addr =
        some (w.balance_yuki - bc.stake_amount) ∧
      balanceOf (Blockchain.mine_block hasher now
          (Blockchain.validate_pending_tasks [Action.approve]
            (bc.submit_task addr taskName m).2).2).2 addr =
        some ((w.balance_yuki - bc.stake_amount) +
          (calculate_reward m + bc.stake_amount)) ∧
      (w.balance_yuki - bc.stake_amount) +
          (calculate_reward m + bc.stake_amount) =
        w.balance_yuki + calculate_reward m := by
  have hnlt : ¬ w.balance_yuki < bc.stake_amount := not_lt.mpr hbal
  have hsub : bc.submit_task addr taskName m =
      (some (Transaction.new addr "System-Reward-Pool" (calculate_reward m)
          taskName m),
        { bc with
            wallets := adjustBalance bc.wallets addr
              (fun b => b - bc.stake_amount)
            tasks_for_validation := bc.tasks_for_validation ++
              [Transaction.new addr "System-Reward-Pool" (calculate_reward m)
                taskName m] }) := by
    unfold Blockchain.submit_task
    simp only [hw]
    rw [if_neg hnlt]
  have hval : (Blockchain.validate_pending_tasks [Action.approve]
      (bc.submit_task addr taskName m).2).2 =
      { bc with
          wallets := adjustBalance bc.wallets addr
            (fun b => b - bc.stake_amount)
          tasks_for_mining :=
            [{ Transaction.new addr "System-Reward-Pool" (calculate_reward m)
                taskName m with status := TaskStatus.Validated }] } := by
    rw [hsub]
    unfold Blockchain.validate_pending_tasks
    simp [isEmpty_append_singleton, List.reverse_append, validateRev,
      validateRev_skipAll, hpool]
  have hgw1 : getWallet (adjustBalance bc.wallets addr
      (fun b => b - bc.stake_amount)) addr =
      some { w with balance_yuki := w.balance_yuki - bc.stake_amount } := by
    rw [getWallet_adjustBalance_self, hw]
    rfl
  obtain ⟨p, hp⟩ : ∃ p, bc.chain.getLast? = some p := by
    cases hcn : bc.chain with
    | nil => exact absurd hcn hchain
    | cons a l => exact ⟨_, List.getLast?_eq_getLast (a :: l) (by simp)⟩
  refine ⟨Transaction.new addr "System-Reward-Pool" (calculate_reward m)
      taskName m, by rw [hsub], rfl, ?_, ?_, ?_⟩
  · rw [hsub]
    unfold balanceOf
    simp [getWallet_adjustBalance_self, hw]
  · rw [hval]
    simp [Blockchain.mine_block, drainRev, hgw1, hp, balanceOf,
      getWallet_adjustBalance_self, Transaction.new]
    omega
  · omega

/-- C4 witness: the full lifecycle at a concrete funded wallet — balance 20
drops to 15 at submission and rises to 23 after mining the reward-3 claim. -/
theorem C4_lifecycle_witness :
    ∃ tx, (bcW.submit_task "w" "task-a" (some mTree)).1 = some tx ∧
      tx.amount = calculate_reward (some mTree) ∧
      balanceOf (bcW.submit_task "w" "task-a" (some mTree)).2 "w" =
        some (walletW.balance_yuki - bcW.stake_amount) ∧
      balanceOf (Blockchain.mine_block hasher0 0
          (Blockchain.validate_pending_tasks [Action.approve]
            (bcW.submit_task "w" "task-a" (some mTree)).2).2).2 "w" =
        some ((walletW.balance_yuki - bcW.stake_amount) +
          (calculate_reward (some mTree) + bcW.stake_amount)) ∧
      (walletW.balance_yuki - bcW.stake_amount) +
          (calculate_reward (some mTree) + bcW.stake_amount) =
        walletW.balance_yuki + calculate_reward (some mTree) :=
  C4_lifecycle bcW hasher0 0 "w" "task-a" (some mTree) walletW rfl
    (by decide) (by decide) rfl (by decide)

end EnvChain
